import Mathlib

/-!
Verification of the seeded quiz-instance generator in
`src/my-app/src/pages/api/atividades/plugged/contagem-instance.ts`.

The embedding models JavaScript number semantics explicitly:
* every bitwise operation (`^`, `|`, `>>>`, `Math.imul`) acts on the 32-bit
  pattern of its operand; the mulberry32 state `a += 0x6D2B79F5` is modelled
  twice: as the exact integer `seed + k * 0x6D2B79F5` reduced mod 2^32 at
  each draw (the spec section 4.1 idealization in which "overflow wraps via
  modular arithmetic" — it agrees with the JS float64 accumulator exactly
  while the sums stay below 2^53, which covers every draw the per-claim
  witnesses consume), and faithfully to the binary64 accumulator, with
  round-to-nearest-even applied after every addition (`accFloat` below),
  which is what the termination analysis requires;
* the float outputs `R / 2^32` are kept as their exact numerators
  `R ∈ [0, 2^32)` — every floating-point expression the routine evaluates on
  them (`rand() > 0.5`, `Math.floor((rand() - 0.5) * 8)`,
  `Math.floor(rand() * (i+1))` for `i + 1 ≤ 4`) is exact in binary64, so the
  integer translations below are faithful;
* the JS `Set` keeps insertion order, modelled by a duplicate-free list.
-/

namespace Contagem

/-- 2^32, the modulus of all 32-bit arithmetic in mulberry32. -/
def M32 : Nat := 4294967296

/-- The odd additive constant 0x6D2B79F5 of the mulberry32 state update. -/
def mulC : Int := 1831565813

/-- The mulberry32 output scrambling of one 32-bit counter pattern `T`:
`t = Math.imul(t ^ (t >>> 15), t | 1); t ^= t + Math.imul(t ^ (t >>> 7), t | 61);
return (t ^ (t >>> 14)) >>> 0`, expressed on bit patterns below 2^32. -/
def scramble (T : Nat) : Nat :=
  let t1 := ((T ^^^ (T >>> 15)) * (T ||| 1)) % M32
  let m := ((t1 ^^^ (t1 >>> 7)) * (t1 ||| 61)) % M32
  let t2 := t1 ^^^ ((t1 + m) % M32)
  t2 ^^^ (t2 >>> 14)

/-- The 32-bit pattern of the mulberry32 state at the k-th draw (0-indexed)
under exact integer accumulation: the JS closure does `a += 0x6D2B79F5`
before scrambling, so draw `k` sees `seed + (k+1) * 0x6D2B79F5`, and the
bitwise operations reduce the value mod 2^32. This models the JS float64
accumulator exactly while `|seed + (k+1) * 0x6D2B79F5| < 2^53` (binary64
addition of integers is exact there; see `counterFloat_eq_counter`), which
covers every draw consumed by the instances this file evaluates; for longer
runs it is the spec section 4.1 idealization in which overflow wraps via
modular arithmetic, while `counterFloat` models the float64 accumulator
faithfully. -/
def counter (seed : Int) (k : Nat) : Nat :=
  ((seed + ((k : Int) + 1) * mulC).emod (M32 : Int)).toNat

/-- Numerator `R` of the k-th float output `R / 2^32` of `mulberry32(seed)`. -/
def randAt (seed : Int) (k : Nat) : Nat :=
  scramble (counter seed k)

/-- `const cards = [8, 4, 2, 1]`. -/
def cards : List Nat := [8, 4, 2, 1]

/-- `rand() > 0.5 ? 1 : 0` at draw `k`: exact, since `R / 2^32 > 1/2 ↔ R > 2^31`. -/
def bitAt (seed : Int) (k : Nat) : Nat :=
  if 2147483648 < randAt seed k then 1 else 0

/-- `const bits = cards.map(() => (rand() > 0.5 ? 1 : 0))`: four draws, in order. -/
def bits (seed : Int) : List Nat :=
  (List.range cards.length).map (fun k => bitAt seed k)

/-- `const decimal = bits.reduce((acc, b, i) => acc + b * cards[i], 0)`. -/
def decimal (seed : Int) : Nat :=
  (List.range (bits seed).length).foldl
    (fun acc i => acc + (bits seed).getD i 0 * cards.getD i 0) 0

/-- `Math.floor((rand() - 0.5) * 8)` on the output numerator `R`:
exactly `⌊(R - 2^31) / 2^29⌋`, a signed delta in `[-4, 3]`. -/
def deltaOf (R : Nat) : Int :=
  Int.fdiv ((R : Int) - 2147483648) 536870912

/-- `Math.max(0, Math.min(15, decimal + delta))`. -/
def clampWrong (d : Nat) (dl : Int) : Int :=
  max 0 (min 15 ((d : Int) + dl))

/-- The wrong-value candidate produced by draw `k`. -/
def wrongAt (seed : Int) (d : Nat) (k : Nat) : Int :=
  clampWrong d (deltaOf (randAt seed k))

/-- The `while (wrongValues.size < 3)` loop, with explicit fuel. State: next
draw index `k` and the insertion-ordered set contents `S`. A candidate is
added when it differs from `decimal` and is not yet present (`Set.add`
deduplicates). Returns the collected list and the next draw index. -/
def collectWrong (seed : Int) (d : Nat) : Nat → Nat → List Int → Option (List Int × Nat)
  | 0, k, S => if 3 ≤ S.length then some (S, k) else none
  | fuel + 1, k, S =>
    if 3 ≤ S.length then some (S, k)
    else
      collectWrong seed d fuel (k + 1)
        (if wrongAt seed d k = (d : Int) ∨ wrongAt seed d k ∈ S then S
         else S ++ [wrongAt seed d k])

/-- `[shuffledValues[i], shuffledValues[j]] = [shuffledValues[j], shuffledValues[i]]`:
both old values are read before either write. -/
def listSwap (l : List Int) (i j : Nat) : List Int :=
  (l.set i (l.getD j 0)).set j (l.getD i 0)

/-- The Fisher–Yates loop `for (let i = len - 1; i > 0; i--)` with
`j = Math.floor(rand() * (i + 1))`; the recursion argument is the loop index
`i`, and `k` the next draw index. `Math.floor(rand() * (i+1))` is exactly
`R * (i+1) / 2^32` in integers (the float product is exact for `i + 1 ≤ 4`). -/
def fyAux (seed : Int) : Nat → Nat → List Int → List Int
  | 0, _, l => l
  | i + 1, k, l =>
    fyAux seed i (k + 1) (listSwap l (i + 1) ((randAt seed k * (i + 2)) / M32))

/-- `const letters = ["A", "B", "C", "D"]`. -/
def letters : List String := ["A", "B", "C", "D"]

/-- One entry of the `alternatives` array. -/
structure Alternative where
  id : String
  value : Int
  label : String
  correct : Bool
deriving Repr, DecidableEq

/-- `letters.map((letter, i) => ({ id, value, label, correct }))`. -/
def mkAlternatives (sv : List Int) (d : Nat) : List Alternative :=
  (List.range letters.length).map (fun i =>
    { id := "opt" ++ toString i
      value := sv.getD i 0
      label := letters.getD i ""
      correct := sv.getD i 0 == (d : Int) })

/-- The record returned by `buildInstanceFromSeed`. -/
structure QuizInstance where
  cards : List Nat
  bits : List Nat
  decimal : Nat
  alternatives : List Alternative
  seed : Int
deriving Repr, DecidableEq

/-- `buildInstanceFromSeed(seed)`: bits from draws 0–3, the wrong-value loop
from draw 4 on, then the Fisher–Yates shuffle of `[decimal, ...wrongValues]`
on the subsequent draws. `fuel` bounds the unbounded JS `while` loop; `none`
means the loop would still be running after `fuel` iterations. -/
def buildInstanceFromSeed (seed : Int) (fuel : Nat) : Option QuizInstance :=
  match collectWrong seed (decimal seed) fuel 4 [] with
  | none => none
  | some (S, k) =>
    some { cards := cards
           bits := bits seed
           decimal := decimal seed
           alternatives := mkAlternatives (fyAux seed 3 k ((decimal seed : Int) :: S)) (decimal seed)
           seed := seed }

/-- JSON values, for the serialized response payload. -/
inductive Json where
  | jstr : String → Json
  | jint : Int → Json
  | jbool : Bool → Json
  | jarr : List Json → Json
  | jobj : List (String × Json) → Json

/-- The property names of a JSON object (empty for non-objects). -/
def objKeys : Json → List String
  | .jobj l => l.map Prod.fst
  | _ => []

/-- Property lookup on a JSON object. -/
def jget (j : Json) (key : String) : Option Json :=
  match j with
  | .jobj l => (l.find? (fun p => p.fst == key)).map Prod.snd
  | _ => none

/-- The element list of a JSON array (empty for non-arrays). -/
def jarrElems : Json → List Json
  | .jarr l => l
  | _ => []

/-- `JSON.stringify` of one alternative object: own properties in insertion
order, including the `correct` boolean. -/
def serializeAlternative (a : Alternative) : Json :=
  .jobj [("id", .jstr a.id), ("value", .jint a.value),
         ("label", .jstr a.label), ("correct", .jbool a.correct)]

/-- `JSON.stringify` of the instance record. -/
def serializeInstance (q : QuizInstance) : Json :=
  .jobj [("cards", .jarr (q.cards.map (fun c => .jint (c : Int)))),
         ("bits", .jarr (q.bits.map (fun b => .jint (b : Int)))),
         ("decimal", .jint (q.decimal : Int)),
         ("alternatives", .jarr (q.alternatives.map serializeAlternative)),
         ("seed", .jint q.seed)]

/-- The HTTP request as the handler sees it: the method, and the optional
`?seed=` query parameter (present on the wire whether or not the handler
reads it). -/
structure Request where
  method : String
  querySeed : Option Int

/-- Responses the handler can produce: `res.status(405).end(...)` or
`res.status(200).json(...)`. -/
inductive ApiResponse where
  | text : Nat → String → ApiResponse
  | json : Nat → Json → ApiResponse

/-- The default-export `handler`: rejects non-GET with 405; otherwise draws
`seed = Math.floor(Math.random() * 1_000_000_000)` — modelled by the
`randomSeed` argument, the value of that expression — builds the instance
from it, and serializes `{ meta: { titulo }, instance }`. The request's
`querySeed` is never consulted. -/
def handler (req : Request) (randomSeed : Nat) (fuel : Nat) : Option ApiResponse :=
  if req.method ≠ "GET" then some (.text 405 "Method Not Allowed")
  else
    match buildInstanceFromSeed (randomSeed : Int) fuel with
    | none => none
    | some q =>
      some (.json 200 (.jobj
        [("meta", .jobj [("titulo", .jstr "Contagem (plugged)")]),
         ("instance", serializeInstance q)]))

end Contagem

namespace Contagem

/-! ### Basic bounds and structural lemmas -/

theorem scramble_lt (T : Nat) : scramble T < M32 := by
  have hM : M32 = 2 ^ 32 := by norm_num [M32]
  unfold scramble
  have h1 : ((T ^^^ (T >>> 15)) * (T ||| 1)) % M32 < M32 := Nat.mod_lt _ (by norm_num [M32])
  set t1 := ((T ^^^ (T >>> 15)) * (T ||| 1)) % M32 with ht1
  have h2 : (t1 + ((t1 ^^^ (t1 >>> 7)) * (t1 ||| 61)) % M32) % M32 < M32 :=
    Nat.mod_lt _ (by norm_num [M32])
  have h3 : t1 ^^^ ((t1 + ((t1 ^^^ (t1 >>> 7)) * (t1 ||| 61)) % M32) % M32) < M32 := by
    rw [hM] at h1 h2 ⊢
    exact Nat.xor_lt_two_pow h1 h2
  set t2 := t1 ^^^ ((t1 + ((t1 ^^^ (t1 >>> 7)) * (t1 ||| 61)) % M32) % M32) with ht2
  have h4 : t2 >>> 14 < M32 := by
    refine lt_of_le_of_lt ?_ h3
    rw [Nat.shiftRight_eq_div_pow]
    exact Nat.div_le_self _ _
  rw [hM] at h3 h4 ⊢
  exact Nat.xor_lt_two_pow h3 h4

theorem randAt_lt (seed : Int) (k : Nat) : randAt seed k < M32 := scramble_lt _

theorem listSwap_length (l : List Int) (i j : Nat) : (listSwap l i j).length = l.length := by
  simp [listSwap]

/-- Swapping two in-range positions permutes the list. -/
theorem listSwap_perm (l : List Int) {i j : Nat} (hi : i < l.length) (hj : j < l.length) :
    (listSwap l i j).Perm l := by
  rw [List.perm_iff_count]
  intro b
  have hj2 : j < (l.set i (l.getD j 0)).length := by simpa using hj
  rw [listSwap, List.count_set _ _ _ _ hj2, List.count_set _ _ _ _ hi]
  have hgj : l.getD j 0 = l[j] := List.getD_eq_getElem l 0 hj
  have hgi : l.getD i 0 = l[i] := List.getD_eq_getElem l 0 hi
  have hmi : l[i] ∈ l := List.getElem_mem hi
  have hmj : l[j] ∈ l := List.getElem_mem hj
  have hci : l[i] = b → 1 ≤ List.count b l := by
    intro h; rw [← h]; exact List.count_pos_iff.mpr hmi
  have hcj : l[j] = b → 1 ≤ List.count b l := by
    intro h; rw [← h]; exact List.count_pos_iff.mpr hmj
  by_cases hij : i = j
  · subst hij
    rw [List.getElem_set_self]
    simp only [hgj, hgi, beq_iff_eq]
    split_ifs with h1 <;> simp_all
  · rw [List.getElem_set_ne hij]
    simp only [hgj, hgi, beq_iff_eq]
    split_ifs with h1 h2 <;> simp_all

/-- Each Fisher–Yates pass permutes the value list (the drawn index
`⌊R·(i+1)/2^32⌋` is always in range because `R < 2^32`). -/
theorem fyAux_perm (seed : Int) : ∀ (i k : Nat) (l : List Int), i < l.length →
    (fyAux seed i k l).Perm l := by
  intro i
  induction i with
  | zero => intro k l _; exact List.Perm.refl l
  | succ i ih =>
    intro k l hi
    have hj : (randAt seed k * (i + 2)) / M32 < l.length := by
      have hR : randAt seed k * (i + 2) < M32 * (i + 2) :=
        (Nat.mul_lt_mul_right (by omega)).mpr (randAt_lt seed k)
      have hq : (randAt seed k * (i + 2)) / M32 < i + 2 := Nat.div_lt_of_lt_mul hR
      omega
    show (fyAux seed i (k + 1) (listSwap l (i + 1) _)).Perm l
    refine (ih (k + 1) _ ?_).trans (listSwap_perm l hi hj)
    rw [listSwap_length]; omega

/-- `Math.max(0, Math.min(15, _))` lands in `[0, 15]`. -/
theorem clampWrong_mem (d : Nat) (dl : Int) : 0 ≤ clampWrong d dl ∧ clampWrong d dl ≤ 15 := by
  unfold clampWrong
  exact ⟨le_max_left 0 _, max_le (by norm_num) (min_le_left _ _)⟩

/-- Invariants of the wrong-value loop: on success the collected list is
duplicate-free, avoids `decimal`, stays in `[0, 15]`, and has exactly three
entries. -/
theorem collectWrong_spec (seed : Int) (d : Nat) :
    ∀ (fuel k : Nat) (S T : List Int) (k2 : Nat),
    collectWrong seed d fuel k S = some (T, k2) →
    S.Nodup → (d : Int) ∉ S → (∀ w ∈ S, 0 ≤ w ∧ w ≤ 15) → S.length ≤ 3 →
    T.Nodup ∧ (d : Int) ∉ T ∧ (∀ w ∈ T, 0 ≤ w ∧ w ≤ 15) ∧ T.length = 3 ∧ k ≤ k2 := by
  intro fuel
  induction fuel with
  | zero =>
    intro k S T k2 h hnd hd hb hl
    rw [collectWrong] at h
    split at h
    · cases h
      exact ⟨hnd, hd, hb, by omega, le_refl _⟩
    · exact absurd h (by simp)
  | succ fuel ih =>
    intro k S T k2 h hnd hd hb hl
    rw [collectWrong] at h
    split at h
    · cases h
      exact ⟨hnd, hd, hb, by omega, le_refl _⟩
    · rename_i h3
      by_cases hcase : wrongAt seed d k = (d : Int) ∨ wrongAt seed d k ∈ S
      · rw [if_pos hcase] at h
        have := ih (k + 1) S T k2 h hnd hd hb hl
        exact ⟨this.1, this.2.1, this.2.2.1, this.2.2.2.1, by omega⟩
      · rw [if_neg hcase] at h
        push_neg at hcase
        have hnd2 : (S ++ [wrongAt seed d k]).Nodup := by
          refine List.Nodup.append hnd (List.nodup_singleton _) ?_
          intro x hx hx2
          simp only [List.mem_singleton] at hx2
          exact hcase.2 (hx2 ▸ hx)
        have hd2 : (d : Int) ∉ S ++ [wrongAt seed d k] := by
          simp only [List.mem_append, List.mem_singleton]
          rintro (h5 | h5)
          · exact hd h5
          · exact hcase.1 h5.symm
        have hb2 : ∀ x ∈ S ++ [wrongAt seed d k], 0 ≤ x ∧ x ≤ 15 := by
          intro x hx
          rcases List.mem_append.mp hx with h5 | h5
          · exact hb x h5
          · rw [List.mem_singleton.mp h5]
            exact clampWrong_mem d _
        have hl2 : (S ++ [wrongAt seed d k]).length ≤ 3 := by
          simp only [List.length_append, List.length_singleton]
          omega
        have := ih (k + 1) (S ++ [wrongAt seed d k]) T k2 h hnd2 hd2 hb2 hl2
        exact ⟨this.1, this.2.1, this.2.2.1, this.2.2.2.1, by omega⟩

end Contagem

namespace Contagem

theorem bitAt_le (s : Int) (k : Nat) : bitAt s k ≤ 1 := by
  unfold bitAt; split <;> simp

/-- The reduce over `[8,4,2,1]` written out. -/
theorem decimal_eq (s : Int) :
    decimal s = bitAt s 0 * 8 + bitAt s 1 * 4 + bitAt s 2 * 2 + bitAt s 3 * 1 := by
  simp [decimal, bits, cards, List.range_succ]

theorem decimal_le (s : Int) : decimal s ≤ 15 := by
  have h0 := bitAt_le s 0
  have h1 := bitAt_le s 1
  have h2 := bitAt_le s 2
  have h3 := bitAt_le s 3
  rw [decimal_eq]
  omega

/-- Structure of any successfully built instance: its fields are the generator
fields, and the shuffled value list is some four pairwise-distinct values in
`[0, 15]` among which `decimal` occurs. -/
theorem build_struct (s : Int) (fuel : Nat) (q : QuizInstance)
    (h : buildInstanceFromSeed s fuel = some q) :
    ∃ x0 x1 x2 x3 : Int,
      q.cards = cards ∧ q.bits = bits s ∧ q.decimal = decimal s ∧ q.seed = s ∧
      q.alternatives = mkAlternatives [x0, x1, x2, x3] (decimal s) ∧
      [x0, x1, x2, x3].Nodup ∧ ((decimal s : Int) ∈ [x0, x1, x2, x3]) ∧
      (∀ x ∈ [x0, x1, x2, x3], 0 ≤ x ∧ x ≤ 15) := by
  unfold buildInstanceFromSeed at h
  cases hcw : collectWrong s (decimal s) fuel 4 [] with
  | none => rw [hcw] at h; cases h
  | some p =>
    obtain ⟨S, k2⟩ := p
    rw [hcw] at h
    obtain ⟨hnd, hd, hb, hlen, -⟩ :=
      collectWrong_spec s (decimal s) fuel 4 [] S k2 hcw (by simp) (by simp) (by simp) (by simp)
    have hperm : (fyAux s 3 k2 ((decimal s : Int) :: S)).Perm ((decimal s : Int) :: S) :=
      fyAux_perm s 3 k2 _ (by simp [hlen])
    have hlen4 : (fyAux s 3 k2 ((decimal s : Int) :: S)).length = 4 := by
      rw [hperm.length_eq]; simp [hlen]
    rcases hfy : fyAux s 3 k2 ((decimal s : Int) :: S) with _ | ⟨x0, _ | ⟨x1, _ | ⟨x2, _ | ⟨x3, rest⟩⟩⟩⟩ <;>
      rw [hfy] at hlen4 <;> simp at hlen4
    subst hlen4
    rw [hfy] at hperm
    cases h
    refine ⟨x0, x1, x2, x3, rfl, rfl, rfl, rfl, by rw [hfy], ?_, ?_, ?_⟩
    · exact hperm.nodup_iff.mpr (List.nodup_cons.mpr ⟨hd, hnd⟩)
    · exact hperm.mem_iff.mpr (List.mem_cons_self _ _)
    · intro x hx
      have hx2 : x ∈ (decimal s : Int) :: S := hperm.mem_iff.mp hx
      rcases List.mem_cons.mp hx2 with h5 | h5
      · subst h5
        have := decimal_le s
        constructor
        · positivity
        · exact_mod_cast this
      · exact hb x h5

end Contagem

namespace Contagem

/-! ### Concrete instances used by the witnesses -/

/-- `mkAlternatives` on an explicit four-element value list. -/
theorem mkAlternatives_explicit (x0 x1 x2 x3 : Int) (d : Nat) :
    mkAlternatives [x0, x1, x2, x3] d =
      [{ id := "opt0", value := x0, label := "A", correct := x0 == (d : Int) },
       { id := "opt1", value := x1, label := "B", correct := x1 == (d : Int) },
       { id := "opt2", value := x2, label := "C", correct := x2 == (d : Int) },
       { id := "opt3", value := x3, label := "D", correct := x3 == (d : Int) }] := rfl

/-- The instance the generator produces for seed 12345. -/
def inst12345 : QuizInstance :=
  { cards := [8, 4, 2, 1], bits := [1, 0, 0, 1], decimal := 9,
    alternatives :=
      [{ id := "opt0", value := 7, label := "A", correct := false },
       { id := "opt1", value := 9, label := "B", correct := true },
       { id := "opt2", value := 5, label := "C", correct := false },
       { id := "opt3", value := 11, label := "D", correct := false }],
    seed := 12345 }

/-- The instance the generator produces for seed 0. -/
def inst0 : QuizInstance :=
  { cards := [8, 4, 2, 1], bits := [0, 0, 0, 0], decimal := 0,
    alternatives :=
      [{ id := "opt0", value := 2, label := "A", correct := false },
       { id := "opt1", value := 0, label := "B", correct := true },
       { id := "opt2", value := 1, label := "C", correct := false },
       { id := "opt3", value := 3, label := "D", correct := false }],
    seed := 0 }

/-- The instance the generator produces for seed 1. -/
def inst1 : QuizInstance :=
  { cards := [8, 4, 2, 1], bits := [1, 0, 1, 1], decimal := 11,
    alternatives :=
      [{ id := "opt0", value := 12, label := "A", correct := false },
       { id := "opt1", value := 11, label := "B", correct := true },
       { id := "opt2", value := 9, label := "C", correct := false },
       { id := "opt3", value := 14, label := "D", correct := false }],
    seed := 1 }

/-- The instance the generator produces for seed -7. -/
def instNeg7 : QuizInstance :=
  { cards := [8, 4, 2, 1], bits := [0, 0, 1, 0], decimal := 2,
    alternatives :=
      [{ id := "opt0", value := 3, label := "A", correct := false },
       { id := "opt1", value := 0, label := "B", correct := false },
       { id := "opt2", value := 4, label := "C", correct := false },
       { id := "opt3", value := 2, label := "D", correct := true }],
    seed := -7 }

/-! ### The claims -/

/-- C1: for every integer seed, an instance returned by `buildInstanceFromSeed`
has exactly one alternative with `correct = true`, and that alternative's
`value` equals the instance's `decimal`. -/
theorem buildInstance_exactly_one_correct (s : Int) (fuel : Nat) (q : QuizInstance)
    (h : buildInstanceFromSeed s fuel = some q) :
    q.alternatives.countP (fun a => a.correct) = 1 ∧
    ∀ a ∈ q.alternatives, a.correct = true → a.value = (q.decimal : Int) := by
  obtain ⟨x0, x1, x2, x3, -, -, hdec, -, halt, hnd, hmem, -⟩ := build_struct s fuel q h
  rw [halt, hdec, mkAlternatives_explicit]
  simp only [List.nodup_cons, List.mem_cons, List.not_mem_nil, or_false,
    List.nodup_nil, and_true, List.mem_singleton] at hnd hmem
  constructor
  · simp only [List.countP_cons, List.countP_nil, beq_iff_eq]
    rcases hmem with h1 | h1 | h1 | h1 <;> split_ifs <;> omega
  · intro a ha
    fin_cases ha <;> simp_all [beq_iff_eq]

/-- Witness for C1 at seed 12345, fuel 100. -/
theorem buildInstance_exactly_one_correct_witness :
    buildInstanceFromSeed 12345 100 = some inst12345 ∧
    (inst12345.alternatives.countP (fun a => a.correct) = 1 ∧
     ∀ a ∈ inst12345.alternatives, a.correct = true → a.value = (inst12345.decimal : Int)) :=
  ⟨by decide, buildInstance_exactly_one_correct 12345 100 inst12345 (by decide)⟩

/-- C2: the generator is a pure function of the seed — two calls of
`buildInstanceFromSeed` with the same seed yield the same bit vector, the same
decimal, the same alternative ordering, and in fact identical instances. -/
theorem buildInstance_deterministic (s : Int) (fuel : Nat) (q1 q2 : QuizInstance)
    (h1 : buildInstanceFromSeed s fuel = some q1)
    (h2 : buildInstanceFromSeed s fuel = some q2) :
    q1.bits = q2.bits ∧ q1.decimal = q2.decimal ∧ q1.alternatives = q2.alternatives ∧ q1 = q2 := by
  rw [h1] at h2
  cases h2
  exact ⟨rfl, rfl, rfl, rfl⟩

/-- Witness for C2 at seed 12345, fuel 100. -/
theorem buildInstance_deterministic_witness :
    buildInstanceFromSeed 12345 100 = some inst12345 ∧
    (inst12345.bits = inst12345.bits ∧ inst12345.decimal = inst12345.decimal ∧
     inst12345.alternatives = inst12345.alternatives ∧ inst12345 = inst12345) :=
  ⟨by decide, buildInstance_deterministic 12345 100 inst12345 inst12345 (by decide) (by decide)⟩

/-- C3: the `decimal` field equals the dot product of the `bits` vector and
the `cards` vector `[8, 4, 2, 1]`. -/
theorem buildInstance_decimal_dot_product (s : Int) (fuel : Nat) (q : QuizInstance)
    (h : buildInstanceFromSeed s fuel = some q) :
    q.decimal = (List.zipWith (fun b c => b * c) q.bits q.cards).sum := by
  obtain ⟨x0, x1, x2, x3, hcards, hbits, hdec, -⟩ := build_struct s fuel q h
  rw [hcards, hbits, hdec, decimal_eq]
  simp [bits, cards, List.range_succ]
  omega

/-- Witness for C3 at seed 1, fuel 100. -/
theorem buildInstance_decimal_dot_product_witness :
    buildInstanceFromSeed 1 100 = some inst1 ∧
    inst1.decimal = (List.zipWith (fun b c => b * c) inst1.bits inst1.cards).sum :=
  ⟨by decide, buildInstance_decimal_dot_product 1 100 inst1 (by decide)⟩

/-- C4: the four alternative values are pairwise distinct (so the three
distractors differ from each other and from `decimal`). -/
theorem buildInstance_values_distinct (s : Int) (fuel : Nat) (q : QuizInstance)
    (h : buildInstanceFromSeed s fuel = some q) :
    q.alternatives.length = 4 ∧ (q.alternatives.map (fun a => a.value)).Nodup := by
  obtain ⟨x0, x1, x2, x3, -, -, -, -, halt, hnd, -, -⟩ := build_struct s fuel q h
  rw [halt, mkAlternatives_explicit]
  simpa using hnd

/-- Witness for C4 at seed -7, fuel 100. -/
theorem buildInstance_values_distinct_witness :
    buildInstanceFromSeed (-7) 100 = some instNeg7 ∧
    (instNeg7.alternatives.length = 4 ∧
     (instNeg7.alternatives.map (fun a => a.value)).Nodup) :=
  ⟨by decide, buildInstance_values_distinct (-7) 100 instNeg7 (by decide)⟩

/-- C5: `decimal` lies in `[0, 15]`, and every alternative's `value` lies in
`[0, 15]`. -/
theorem buildInstance_values_range (s : Int) (fuel : Nat) (q : QuizInstance)
    (h : buildInstanceFromSeed s fuel = some q) :
    q.decimal ≤ 15 ∧ ∀ a ∈ q.alternatives, 0 ≤ a.value ∧ a.value ≤ 15 := by
  obtain ⟨x0, x1, x2, x3, -, -, hdec, -, halt, -, -, hrange⟩ := build_struct s fuel q h
  constructor
  · rw [hdec]; exact decimal_le s
  · intro a ha
    rw [halt, mkAlternatives_explicit] at ha
    fin_cases ha <;> [exact hrange x0 (by simp); exact hrange x1 (by simp);
      exact hrange x2 (by simp); exact hrange x3 (by simp)]

/-- Witness for C5 at seed 0, fuel 100. -/
theorem buildInstance_values_range_witness :
    buildInstanceFromSeed 0 100 = some inst0 ∧
    (inst0.decimal ≤ 15 ∧ ∀ a ∈ inst0.alternatives, 0 ≤ a.value ∧ a.value ≤ 15) :=
  ⟨by decide, buildInstance_values_range 0 100 inst0 (by decide)⟩

end Contagem

namespace Contagem

/-! ### Handler-level claims -/

/-- The per-alternative key lists of a serialized response payload: for a
200/JSON response, the property names of each object in
`payload.instance.alternatives`. -/
def alternativeKeyLists : Option ApiResponse → Option (List (List String))
  | some (.json _ j) =>
    ((jget j "instance").bind (fun i => jget i "alternatives")).map
      (fun a => (jarrElems a).map objKeys)
  | _ => none

/-- The `instance.seed` field of a serialized response payload. -/
def instanceSeedOf : Option ApiResponse → Option Json
  | some (.json _ j) => (jget j "instance").bind (fun i => jget i "seed")
  | _ => none

/-- C6 (violated by the code): on a GET request (random seed 0) every one of
the four serialized alternative objects carries a `correct` key, contradicting
the requirement (and the source's own comment) that the client payload not
include a per-alternative correctness indicator. -/
theorem handler_leaks_correct_field :
    alternativeKeyLists (handler { method := "GET", querySeed := none } 0 100) =
      some [["id", "value", "label", "correct"], ["id", "value", "label", "correct"],
            ["id", "value", "label", "correct"], ["id", "value", "label", "correct"]] := by
  rfl

/-- C7 (violated by the code): the handler never consults the request's
`?seed=` parameter — the response is literally independent of it — and the
instance it serializes is seeded from the freshly drawn `Math.random()` value
(here 42), not from the supplied `?seed=123`. -/
theorem handler_ignores_query_seed :
    (∀ (qs1 qs2 : Option Int) (rs fuel : Nat),
      handler { method := "GET", querySeed := qs1 } rs fuel =
        handler { method := "GET", querySeed := qs2 } rs fuel) ∧
    instanceSeedOf (handler { method := "GET", querySeed := some 123 } 42 100) =
      some (.jint 42) :=
  ⟨fun _ _ _ _ => rfl, rfl⟩

/-- C10: every request whose method is not GET is answered with
405 Method Not Allowed, and no instance is generated or returned. -/
theorem handler_non_get_405 (req : Request) (rs fuel : Nat) (h : req.method ≠ "GET") :
    handler req rs fuel = some (.text 405 "Method Not Allowed") := by
  unfold handler
  rw [if_pos h]

/-- Witness for C10: a POST request. -/
theorem handler_non_get_405_witness :
    ("POST" ≠ "GET") ∧
    handler { method := "POST", querySeed := none } 0 100 =
      some (.text 405 "Method Not Allowed") :=
  ⟨by decide, handler_non_get_405 { method := "POST", querySeed := none } 0 100 (by decide)⟩

/-! ### The shuffle refinement (C9) -/

/-- The shuffle as the spec words it: for `i` from 3 down to 1, draw
`j = floor(stream() * (i + 1))` and swap positions `i` and `j` — unrolled as
three swaps of the four-element candidate list, `k` being the index of the
first shuffle draw. -/
def shuffleSpec (seed : Int) (k : Nat) (l : List Int) : List Int :=
  let l3 := listSwap l 3 (randAt seed k * 4 / M32)
  let l2 := listSwap l3 2 (randAt seed (k + 1) * 3 / M32)
  listSwap l2 1 (randAt seed (k + 2) * 2 / M32)

/-- C9: when the wrong-value loop stops at draw index `k2` with collected
distractors `S`, the candidate list before shuffling is exactly
`decimal :: S` (correct value first, three distractors in insertion order),
the alternatives are that list shuffled by the spec's Fisher–Yates (one
stream draw per position, `i` from 3 down to 1, `j = ⌊stream()·(i+1)⌋`), and
the letters A–D are assigned to the shuffled values in order. -/
theorem buildInstance_shuffle_spec (s : Int) (fuel : Nat) (q : QuizInstance)
    (S : List Int) (k2 : Nat)
    (hcw : collectWrong s (decimal s) fuel 4 [] = some (S, k2))
    (h : buildInstanceFromSeed s fuel = some q) :
    S.length = 3 ∧
    q.alternatives = mkAlternatives (shuffleSpec s k2 ((decimal s : Int) :: S)) (decimal s) ∧
    q.alternatives.map (fun a => a.label) = letters := by
  unfold buildInstanceFromSeed at h
  rw [hcw] at h
  cases h
  refine ⟨(collectWrong_spec s (decimal s) fuel 4 [] S k2 hcw
    (by simp) (by simp) (by simp) (by simp)).2.2.2.1, rfl, rfl⟩

/-- Witness for C9 at seed 1, fuel 100: the loop stops at draw index 8 with
distractors `[14, 9, 12]`. -/
theorem buildInstance_shuffle_spec_witness :
    collectWrong 1 (decimal 1) 100 4 [] = some ([14, 9, 12], 8) ∧
    buildInstanceFromSeed 1 100 = some inst1 ∧
    (([(14 : Int), 9, 12].length = 3) ∧
     inst1.alternatives = mkAlternatives (shuffleSpec 1 8 ((decimal 1 : Int) :: [14, 9, 12])) (decimal 1) ∧
     inst1.alternatives.map (fun a => a.label) = letters) :=
  ⟨by decide, by decide,
   buildInstance_shuffle_spec 1 100 inst1 [14, 9, 12] 8 (by decide) (by decide)⟩

end Contagem

namespace Contagem

/-- The counter of the mulberry32 stream hits every 32-bit pattern within any
window of 2^32 consecutive draws, because the additive constant is odd and
hence invertible mod 2^32 (its inverse is 3696798301). -/
theorem counter_hit (seed : Int) (k0 : Nat) (x : Nat) (hx : x < M32) :
    ∃ k : Nat, k0 ≤ k ∧ k < k0 + M32 ∧ counter seed k = x := by
  have hNpos : (0 : Int) < (M32 : Int) := by norm_num [M32]
  set m : Int := (x : Int) - seed - ((k0 : Int) + 1) * mulC with hm
  set j : Int := (m * 3696798301).emod (M32 : Int) with hj
  have hj0 : 0 ≤ j := Int.emod_nonneg _ (by norm_num [M32])
  have hjlt : j < (M32 : Int) := Int.emod_lt_of_pos _ hNpos
  have hjnat : j.toNat < M32 := by omega
  refine ⟨k0 + j.toNat, Nat.le_add_right _ _, by omega, ?_⟩
  unfold counter
  have hcast : ((k0 + j.toNat : Nat) : Int) = (k0 : Int) + j := by
    push_cast
    rw [Int.toNat_of_nonneg hj0]
  rw [hcast]
  have h1 : j ≡ m * 3696798301 [ZMOD (M32 : Int)] := Int.emod_emod_of_dvd _ dvd_rfl
  have h2 : j * mulC ≡ m * 3696798301 * mulC [ZMOD (M32 : Int)] := h1.mul_right mulC
  have h4 : m * 3696798301 * mulC ≡ m * 1 [ZMOD (M32 : Int)] := by
    have : (3696798301 * mulC) ≡ 1 [ZMOD (M32 : Int)] := by decide
    calc m * 3696798301 * mulC = m * (3696798301 * mulC) := by ring
      _ ≡ m * 1 [ZMOD (M32 : Int)] := this.mul_left m
  have h5 : j * mulC ≡ m [ZMOD (M32 : Int)] := by
    have := h2.trans h4
    simpa using this
  have key : seed + ((k0 : Int) + j + 1) * mulC ≡ (x : Int) [ZMOD (M32 : Int)] := by
    have heq : seed + ((k0 : Int) + j + 1) * mulC
        = seed + ((k0 : Int) + 1) * mulC + j * mulC := by ring
    have := h5.add_left (seed + ((k0 : Int) + 1) * mulC)
    rw [heq]
    refine this.trans ?_
    have : seed + ((k0 : Int) + 1) * mulC + m = (x : Int) := by rw [hm]; ring
    rw [this]
  have hfin : (seed + ((k0 : Int) + j + 1) * mulC).emod (M32 : Int) = (x : Int) := by
    show (seed + ((k0 : Int) + j + 1) * mulC) % (M32 : Int) = (x : Int)
    unfold Int.ModEq at key
    rw [key]
    exact Int.emod_eq_of_lt (by positivity) (by exact_mod_cast hx)
  rw [hfin, Int.toNat_natCast]

/-- Three distinct values cannot all lie in a list of length at most two. -/
theorem three_not_mem (w1 w2 w3 : Int) (h12 : w1 ≠ w2) (h13 : w1 ≠ w3) (h23 : w2 ≠ w3)
    (S : List Int) (hS : S.length ≤ 2) : w1 ∉ S ∨ w2 ∉ S ∨ w3 ∉ S := by
  by_contra hcon
  push_neg at hcon
  obtain ⟨h1, h2, h3⟩ := hcon
  have hsub : ({w1, w2, w3} : Finset Int) ⊆ S.toFinset := by
    intro y hy
    simp only [Finset.mem_insert, Finset.mem_singleton] at hy
    rcases hy with rfl | rfl | rfl <;> exact List.mem_toFinset.mpr (by assumption)
  have hcard : ({w1, w2, w3} : Finset Int).card = 3 := by
    rw [Finset.card_insert_of_not_mem (by simp [h12, h13]),
      Finset.card_insert_of_not_mem (by simp [h23]), Finset.card_singleton]
  have := Finset.card_le_card hsub
  have := List.toFinset_card_le S
  omega

/-- Given three counter patterns whose scrambled outputs clamp to three
distinct non-`decimal` values, one of those values is missing from any list
of at most two entries. -/
theorem exists_fresh_of_triple (d : Nat) (S : List Int) (hS : S.length ≤ 2)
    (x1 x2 x3 : Nat) (hx1 : x1 < M32) (hx2 : x2 < M32) (hx3 : x3 < M32)
    (h12 : clampWrong d (deltaOf (scramble x1)) ≠ clampWrong d (deltaOf (scramble x2)))
    (h13 : clampWrong d (deltaOf (scramble x1)) ≠ clampWrong d (deltaOf (scramble x3)))
    (h23 : clampWrong d (deltaOf (scramble x2)) ≠ clampWrong d (deltaOf (scramble x3)))
    (hd1 : clampWrong d (deltaOf (scramble x1)) ≠ (d : Int))
    (hd2 : clampWrong d (deltaOf (scramble x2)) ≠ (d : Int))
    (hd3 : clampWrong d (deltaOf (scramble x3)) ≠ (d : Int)) :
    ∃ x : Nat, x < M32 ∧ clampWrong d (deltaOf (scramble x)) ∉ S ∧
      clampWrong d (deltaOf (scramble x)) ≠ (d : Int) := by
  rcases three_not_mem _ _ _ h12 h13 h23 S hS with h | h | h
  · exact ⟨x1, hx1, h, hd1⟩
  · exact ⟨x2, hx2, h, hd2⟩
  · exact ⟨x3, hx3, h, hd3⟩

/-- For every possible `decimal` and every set of fewer than three collected
wrongs, some counter pattern yields a fresh wrong value. Patterns 228, 238,
248 scramble to deltas +1, +2, +3, and 152, 182, 201 to deltas -3, -2, -1. -/
theorem exists_fresh (d : Nat) (hd : d ≤ 15) (S : List Int) (hS : S.length ≤ 2) :
    ∃ x : Nat, x < M32 ∧ clampWrong d (deltaOf (scramble x)) ∉ S ∧
      clampWrong d (deltaOf (scramble x)) ≠ (d : Int) := by
  interval_cases d <;>
    first
    | exact exists_fresh_of_triple _ S hS 228 238 248 (by norm_num [M32]) (by norm_num [M32])
        (by norm_num [M32]) (by decide) (by decide) (by decide) (by decide) (by decide) (by decide)
    | exact exists_fresh_of_triple _ S hS 201 228 238 (by norm_num [M32]) (by norm_num [M32])
        (by norm_num [M32]) (by decide) (by decide) (by decide) (by decide) (by decide) (by decide)
    | exact exists_fresh_of_triple _ S hS 182 201 228 (by norm_num [M32]) (by norm_num [M32])
        (by norm_num [M32]) (by decide) (by decide) (by decide) (by decide) (by decide) (by decide)
    | exact exists_fresh_of_triple _ S hS 152 182 201 (by norm_num [M32]) (by norm_num [M32])
        (by norm_num [M32]) (by decide) (by decide) (by decide) (by decide) (by decide) (by decide)

end Contagem

namespace Contagem

/-- If some draw within the next `m` steps yields a fresh wrong value, then
running the loop either terminates or grows the collected set within those
steps, after which the continuation takes over. -/
theorem collectWrong_progress (seed : Int) (d : Nat) :
    ∀ (m k0 : Nat) (S : List Int) (fuel : Nat),
    S.length < 3 → m ≤ fuel →
    (∃ k, k0 ≤ k ∧ k < k0 + m ∧ wrongAt seed d k ∉ S ∧ wrongAt seed d k ≠ (d : Int)) →
    (∀ (j k2 : Nat) (S2 : List Int), j < m → S2.length = S.length + 1 →
      (collectWrong seed d (fuel - (j + 1)) k2 S2).isSome = true) →
    (collectWrong seed d fuel k0 S).isSome = true := by
  intro m
  induction m with
  | zero =>
    intro k0 S fuel _ _ hex _
    obtain ⟨k, hk1, hk2, -⟩ := hex
    omega
  | succ m ih =>
    intro k0 S fuel hlen hfuel hex cont
    obtain ⟨f, rfl⟩ : ∃ f, fuel = f + 1 := ⟨fuel - 1, by omega⟩
    rw [collectWrong, if_neg (by omega)]
    by_cases hcond : wrongAt seed d k0 = (d : Int) ∨ wrongAt seed d k0 ∈ S
    · rw [if_pos hcond]
      obtain ⟨k, hk1, hk2, hknm, hknd⟩ := hex
      have hkne : k ≠ k0 := by
        rintro rfl
        rcases hcond with h | h
        · exact hknd h
        · exact hknm h
      refine ih (k0 + 1) S f hlen (by omega) ⟨k, by omega, by omega, hknm, hknd⟩ ?_
      intro j k2 S2 hj hlen2
      have heq : f - (j + 1) = f + 1 - (j + 1 + 1) := by omega
      rw [heq]
      exact cont (j + 1) k2 S2 (by omega) hlen2
    · rw [if_neg hcond]
      have heq : f = f + 1 - (0 + 1) := by omega
      rw [heq]
      exact cont 0 (k0 + 1) (S ++ [wrongAt seed d k0]) (by omega) (by simp)

/-- The wrong-value loop succeeds for every seed once given `n·2^32` fuel,
where `n` is the number of values still missing: a fresh value always appears
within the next 2^32 draws. -/
theorem collectWrong_total (seed : Int) (d : Nat) (hd : d ≤ 15) :
    ∀ (n k0 : Nat) (S : List Int), 3 ≤ S.length + n →
    ∀ fuel, n * M32 ≤ fuel →
    (collectWrong seed d fuel k0 S).isSome = true := by
  intro n
  induction n with
  | zero =>
    intro k0 S hS fuel _
    cases fuel with
    | zero => rw [collectWrong, if_pos (by omega)]; rfl
    | succ f => rw [collectWrong, if_pos (by omega)]; rfl
  | succ n ih =>
    intro k0 S hS fuel hfuel
    rw [Nat.succ_mul] at hfuel
    by_cases h3 : 3 ≤ S.length
    · cases fuel with
      | zero => rw [collectWrong, if_pos h3]; rfl
      | succ f => rw [collectWrong, if_pos h3]; rfl
    · push_neg at h3
      obtain ⟨x, hx, hxm, hxd⟩ := exists_fresh d hd S (by omega)
      obtain ⟨k, hk1, hk2, hkc⟩ := counter_hit seed k0 x hx
      have hw : wrongAt seed d k = clampWrong d (deltaOf (scramble x)) := by
        unfold wrongAt randAt
        rw [hkc]
      have hM : 0 < M32 := by norm_num [M32]
      refine collectWrong_progress seed d M32 k0 S fuel h3 (by omega)
        ⟨k, hk1, hk2, by rw [hw]; exact hxm, by rw [hw]; exact hxd⟩ ?_
      intro j k2 S2 hj hlen2
      exact ih k2 S2 (by omega) (fuel - (j + 1)) (by omega)

/-- C8, amended: under the spec section 4.1 idealization of the accumulator
(exact integer accumulation, overflow wrapping mod 2^32 — the model in which
the approved per-instance claims are also proved), the distractor retry loop
collects three distinct wrong values within at most `3·2^32` draws for every
integer seed, so `buildInstanceFromSeed` returns a valid instance. The
unrestricted claim is false of the float64 code: the faithful-accumulator
model below loops forever on the representable integer seed `2^84`. -/
theorem buildInstance_terminates (seed : Int) :
    (buildInstanceFromSeed seed (3 * M32)).isSome = true := by
  have h := collectWrong_total seed (decimal seed) (decimal_le seed) 3 4 []
    (by simp) (3 * M32) (le_refl _)
  unfold buildInstanceFromSeed
  cases hcw : collectWrong seed (decimal seed) (3 * M32) 4 [] with
  | none => rw [hcw] at h; simp at h
  | some p =>
    obtain ⟨S, k⟩ := p
    rfl

end Contagem

namespace Contagem

/-! ### The float64-faithful accumulator model

The JS closure state `a += 0x6D2B79F5` is a binary64 number that is never
reduced mod 2^32. The `counter` model above tracks the exact integer sum,
which coincides with the float while `|seed + (k+1)·C| < 2^53` but diverges
beyond (first divergence at draw 4917759 for seed 0). The definitions below
model the accumulator faithfully by applying binary64 round-to-nearest-even
after every addition. -/

/-- Binary digit count, with structural fuel so it evaluates; 1100 covers
every finite binary64 magnitude (< 2^1024). -/
def bitLenAux : Nat → Nat → Nat
  | 0, _ => 0
  | fuel + 1, n => if n = 0 then 0 else bitLenAux fuel (n / 2) + 1

/-- Number of binary digits of `n` (`0` for `0`). -/
def bitLen (n : Nat) : Nat := bitLenAux 1100 n

/-- Round a natural number to the nearest binary64 value (ties to even):
exact below 2^53, else the significand keeps 53 bits and the rest rounds. -/
def fl64nat (m : Nat) : Nat :=
  if m < 2 ^ 53 then m
  else
    let s := bitLen m - 53
    let q := m / 2 ^ s
    let r := m % 2 ^ s
    let half := 2 ^ (s - 1)
    let qr := if r < half then q
              else if half < r then q + 1
              else if q % 2 = 0 then q else q + 1
    qr * 2 ^ s

/-- Round an integer to the nearest binary64 value (rounding is symmetric
around zero), modelling what `a += 0x6D2B79F5` stores when the exact sum is
no longer representable. -/
def fl64 (n : Int) : Int :=
  if 0 ≤ n then (fl64nat n.toNat : Int) else -((fl64nat (-n).toNat : Int))

/-- The accumulator after `k` additions of the constant, each addition
rounded as binary64 addition rounds it. -/
def accFloat (seed : Int) : Nat → Int
  | 0 => seed
  | k + 1 => fl64 (accFloat seed k + mulC)

/-- The 32-bit pattern the bitwise operations see at draw `k` (0-indexed)
under the faithful accumulator. -/
def counterFloat (seed : Int) (k : Nat) : Nat :=
  ((accFloat seed (k + 1)).emod (M32 : Int)).toNat

/-- Draw `k` of `mulberry32(seed)` under the faithful accumulator. -/
def randAtFloat (seed : Int) (k : Nat) : Nat :=
  scramble (counterFloat seed k)

/-- `rand() > 0.5 ? 1 : 0` under the faithful accumulator. -/
def bitAtFloat (seed : Int) (k : Nat) : Nat :=
  if 2147483648 < randAtFloat seed k then 1 else 0

/-- `const bits = cards.map(...)` under the faithful accumulator. -/
def bitsFloat (seed : Int) : List Nat :=
  (List.range cards.length).map (fun k => bitAtFloat seed k)

/-- `const decimal = bits.reduce(...)` under the faithful accumulator. -/
def decimalFloat (seed : Int) : Nat :=
  (List.range (bitsFloat seed).length).foldl
    (fun acc i => acc + (bitsFloat seed).getD i 0 * cards.getD i 0) 0

/-- The wrong-value candidate of draw `k` under the faithful accumulator. -/
def wrongAtFloat (seed : Int) (d : Nat) (k : Nat) : Int :=
  clampWrong d (deltaOf (randAtFloat seed k))

/-- The `while (wrongValues.size < 3)` loop under the faithful accumulator. -/
def collectWrongFloat (seed : Int) (d : Nat) : Nat → Nat → List Int → Option (List Int × Nat)
  | 0, k, S => if 3 ≤ S.length then some (S, k) else none
  | fuel + 1, k, S =>
    if 3 ≤ S.length then some (S, k)
    else
      collectWrongFloat seed d fuel (k + 1)
        (if wrongAtFloat seed d k = (d : Int) ∨ wrongAtFloat seed d k ∈ S then S
         else S ++ [wrongAtFloat seed d k])

/-- The Fisher–Yates loop under the faithful accumulator. -/
def fyAuxFloat (seed : Int) : Nat → Nat → List Int → List Int
  | 0, _, l => l
  | i + 1, k, l =>
    fyAuxFloat seed i (k + 1) (listSwap l (i + 1) ((randAtFloat seed k * (i + 2)) / M32))

/-- `buildInstanceFromSeed(seed)` under the faithful float64 accumulator. -/
def buildInstanceFromSeedFloat (seed : Int) (fuel : Nat) : Option QuizInstance :=
  match collectWrongFloat seed (decimalFloat seed) fuel 4 [] with
  | none => none
  | some (S, k) =>
    some { cards := cards
           bits := bits seed
           decimal := decimalFloat seed
           alternatives := mkAlternatives (fyAuxFloat seed 3 k ((decimalFloat seed : Int) :: S)) (decimalFloat seed)
           seed := seed }

/-- Rounding is the identity on integers below 2^53. -/
theorem fl64_of_small (n : Int) (h : n.natAbs < 2 ^ 53) : fl64 n = n := by
  have h2 : ∀ m : Nat, m < 2 ^ 53 → fl64nat m = m := by
    intro m hm
    unfold fl64nat
    rw [if_pos hm]
  unfold fl64
  by_cases h0 : 0 ≤ n
  · rw [if_pos h0, h2 _ (by omega)]
    exact Int.toNat_of_nonneg h0
  · rw [if_neg h0, h2 _ (by omega)]
    omega

/-- In the exact regime the faithful accumulator equals the integer sum. -/
theorem accFloat_exact (seed : Int) :
    ∀ k : Nat, (∀ j : Nat, j ≤ k → (seed + (j : Int) * mulC).natAbs < 2 ^ 53) →
    accFloat seed k = seed + (k : Int) * mulC := by
  intro k
  induction k with
  | zero => intro _; simp [accFloat]
  | succ k ih =>
    intro h
    rw [accFloat, ih (fun j hj => h j (by omega))]
    have heq : seed + (k : Int) * mulC + mulC = seed + ((k : Int) + 1) * mulC := by ring
    rw [heq, fl64_of_small]
    · push_cast; ring
    · have := h (k + 1) (le_refl _)
      push_cast at this
      exact this

/-- Hence the two counter models agree while the additions stay exact —
in particular for all the draws the earlier witnesses consume. -/
theorem counterFloat_eq_counter (seed : Int) (k : Nat)
    (h : ∀ j : Nat, j ≤ k + 1 → (seed + (j : Int) * mulC).natAbs < 2 ^ 53) :
    counterFloat seed k = counter seed k := by
  unfold counterFloat counter
  rw [accFloat_exact seed (k + 1) h]
  push_cast
  ring_nf

end Contagem

namespace Contagem

set_option maxRecDepth 40000 in
/-- `2^84 + 0x6D2B79F5` rounds back to `2^84`: the ulp there is `2^32` and the
constant is below half of it, so binary64 addition leaves the accumulator
unchanged. -/
theorem fl64_fixpoint_pow84 : fl64 (2 ^ 84 + mulC) = 2 ^ 84 := by decide

set_option maxRecDepth 40000 in
/-- The pattern `2^84 mod 2^32` is zero. -/
theorem pow84_emod : (((2 : Int) ^ 84).emod (M32 : Int)).toNat = 0 := by decide

/-- For seed `2^84` the accumulator never moves. -/
theorem accFloat_pow84 (k : Nat) : accFloat (2 ^ 84) k = 2 ^ 84 := by
  induction k with
  | zero => rfl
  | succ k ih => rw [accFloat, ih, fl64_fixpoint_pow84]

/-- Hence every draw for seed `2^84` returns the same numerator,
`scramble 0 = 0`. -/
theorem randAtFloat_pow84 (k : Nat) : randAtFloat (2 ^ 84) k = 0 := by
  unfold randAtFloat counterFloat
  rw [accFloat_pow84, pow84_emod]
  decide

/-- All four bits are 0 for seed `2^84`, so `decimal = 0`. -/
theorem decimalFloat_pow84 : decimalFloat (2 ^ 84) = 0 := by
  have h : ∀ k : Nat, bitAtFloat (2 ^ 84) k = 0 := by
    intro k
    unfold bitAtFloat
    rw [randAtFloat_pow84]
    rfl
  have hb : bitsFloat (2 ^ 84) = [0, 0, 0, 0] := by
    unfold bitsFloat
    rw [show List.range cards.length = [0, 1, 2, 3] from rfl]
    simp only [List.map_cons, List.map_nil, h]
  unfold decimalFloat
  rw [hb]
  rfl

/-- Every wrong-value candidate for seed `2^84` is
`clamp(0 + ⌊(0/2^32 - 0.5)·8⌋) = clamp(-4) = 0`, which equals `decimal`. -/
theorem wrongAtFloat_pow84 (k : Nat) : wrongAtFloat (2 ^ 84) 0 k = 0 := by
  unfold wrongAtFloat
  rw [randAtFloat_pow84]
  decide

/-- The candidate is always rejected, so the set never grows and the loop
runs out of any amount of fuel. -/
theorem collectWrongFloat_pow84 (fuel : Nat) :
    ∀ k : Nat, collectWrongFloat (2 ^ 84) 0 fuel k [] = none := by
  induction fuel with
  | zero => intro k; rfl
  | succ fuel ih =>
    intro k
    rw [collectWrongFloat, if_neg (by simp), if_pos (Or.inl (by rw [wrongAtFloat_pow84]; rfl))]
    exact ih (k + 1)

/-- `buildInstanceFromSeed`, under the faithful float64 accumulator, loops
forever on a seed: no amount of fuel makes the retry loop finish. -/
def loopsForever (seed : Int) : Prop :=
  ∀ fuel : Nat, buildInstanceFromSeedFloat seed fuel = none

/-- Counterexample to C8 as stated: under the faithful float64 accumulator,
the representable integer seed `2^84` makes the stream constant at numerator
0, the only candidate wrong value equals `decimal = 0`, and the retry loop of
`buildInstanceFromSeed` never collects a single wrong value: the call loops
forever (no fuel suffices). -/
theorem buildInstanceFloat_nonterminating : loopsForever (2 ^ 84) := by
  intro fuel
  unfold buildInstanceFromSeedFloat
  rw [decimalFloat_pow84, collectWrongFloat_pow84]

end Contagem
